import Mathlib

/-!
Verification development for the documentation cog (`bot/exts/info/doc/_cog.py`).

The file shallowly embeds the parts of the source that the specification's
claims are about:

* the symbol-table merge loop of `DocCog.update_single` (collision rules,
  per-entry group parsing, the retry-scheduling failure branch);
* the `CachedParser` class: `get_markdown`, `_parse_queue`, `_move_to_front`,
  `add_item`, `clear`, both as sequential functions and as a small-step
  transition system for the cooperative (asyncio) interleavings.

Python data is embedded as follows: `dict` as an association list with
overwrite-on-insert, `set` as a list with membership-guarded insert,
`str.split` / `str.partition` via `String.splitOn`, and exceptions as
`Option` / explicit error flags.
-/

namespace DocCogModel

/-- `DocItem` from the source: holds inventory symbol information. -/
structure DocItem where
  package : String
  group : String
  base_url : String
  relative_url_path : String
  symbol_id : String
deriving DecidableEq, Repr

/-- `DocItem.url`: the absolute url to the symbol (`base_url + relative_url_path`). -/
def DocItem.url (d : DocItem) : String := d.base_url ++ d.relative_url_path

/-- Association-list lookup, modelling Python `dict.get`. -/
def mapLookup (m : List (String × DocItem)) (k : String) : Option DocItem :=
  match m with
  | [] => none
  | (k', v) :: rest => if k' = k then some v else mapLookup rest k

/-- Remove every binding of key `k` (auxiliary to `mapInsert`). -/
def mapErase (m : List (String × DocItem)) (k : String) :
    List (String × DocItem) :=
  match m with
  | [] => []
  | (k', v') :: rest =>
    if k' = k then mapErase rest k else (k', v') :: mapErase rest k

/-- Association-list overwrite-insert, modelling Python `dict[k] = v`. -/
def mapInsert (m : List (String × DocItem)) (k : String) (v : DocItem) :
    List (String × DocItem) :=
  (k, v) :: mapErase m k

/-- Set insert, modelling Python `set.add`. -/
def setInsert (s : List String) (x : String) : List String :=
  if x ∈ s then s else x :: s

/-- `FORCE_PREFIX_GROUPS` from the source: symbols with a group contained here
get the group prefixed on duplicates. -/
def FORCE_PREFIX_GROUPS : List String :=
  ["2to3fixer", "token", "label", "pdbcommand", "term"]

/-- `PRIORITY_PACKAGES` from the source. -/
def PRIORITY_PACKAGES : List String := ["python"]

/-- Split a character list at every occurrence of `c`, keeping empty pieces:
the semantics of Python `str.split(c)` for a one-character separator. -/
def splitChar (c : Char) : List Char → List (List Char)
  | [] => [[]]
  | x :: xs =>
    match splitChar c xs with
    | [] => if x = c then [[], []] else [[x]]
    | piece :: pieces =>
      if x = c then [] :: piece :: pieces else (x :: piece) :: pieces

/-- Python `s.split(c)` for a single-character separator `c`. -/
def pySplit (s : String) (c : Char) : List String :=
  (splitChar c s.data).map List.asString

/-- Python `relative_doc_url.partition("#")`, keeping the part before the first
`#` and the part after it (empty when there is no `#`). -/
def partitionHash (s : String) : String × String :=
  ((s.data.takeWhile (· ≠ '#')).asString,
    match s.data.dropWhile (· ≠ '#') with
    | [] => ""
    | _ :: post => post.asString)

/-- The mutable state that `DocCog.update_single`'s merge loop operates on:
`self.doc_symbols`, `self.renamed_symbols`, and the items handed to
`self.item_fetcher.add_item` (recorded as a list, in call order). -/
structure MergeState where
  doc_symbols : List (String × DocItem)
  renamed_symbols : List String
  fetcherItems : List DocItem
deriving DecidableEq, Repr

/-- One iteration of the inner loop of `DocCog.update_single`
(`_cog.py` lines 221–257), for one `(symbol, relative_doc_url)` pair of group
`group`.  Returns `none` when `group.split(":")[1]` raises `IndexError`
(group identifier without a colon); a symbol containing `"/"` is skipped
(`continue`), leaving the state unchanged. -/
def mergeEntry (api_package_name base_url : String) (st : MergeState)
    (group symbol relative_doc_url : String) : Option MergeState :=
  if '/' ∈ symbol.data then some st
  else
    match (pySplit group ':').get? 1 with
    | none => none
    | some group_name =>
      let (symbol', st1) :=
        match mapLookup st.doc_symbols symbol with
        | none => (symbol, st)
        | some original_symbol =>
          if group_name ∈ FORCE_PREFIX_GROUPS then
            let s := group_name ++ "." ++ symbol
            (s, { st with renamed_symbols := setInsert st.renamed_symbols s })
          else if original_symbol.group ∈ FORCE_PREFIX_GROUPS then
            let ov0 := original_symbol.group ++ "." ++ symbol
            let ov := if ov0 ∈ st.renamed_symbols
              then api_package_name ++ "." ++ ov0 else ov0
            (symbol,
              { st with
                doc_symbols := mapInsert st.doc_symbols ov original_symbol
                renamed_symbols := setInsert st.renamed_symbols ov })
          else if api_package_name ∈ PRIORITY_PACKAGES then
            (symbol,
              { st with
                doc_symbols :=
                  mapInsert st.doc_symbols
                    (original_symbol.package ++ "." ++ symbol) original_symbol
                renamed_symbols := setInsert st.renamed_symbols symbol })
          else
            let s := api_package_name ++ "." ++ symbol
            (s, { st with renamed_symbols := setInsert st.renamed_symbols s })
      let rp := partitionHash relative_doc_url
      let symbol_item : DocItem :=
        ⟨api_package_name, group_name, base_url, rp.1, rp.2⟩
      some
        { doc_symbols := mapInsert st1.doc_symbols symbol' symbol_item
          renamed_symbols := st1.renamed_symbols
          fetcherItems := st1.fetcherItems ++ [symbol_item] }

/-- The inner `for symbol, relative_doc_url in items` loop for one group.
The Boolean is `true` when an entry raised (`IndexError` from
`group.split(":")[1]`); in Python the exception propagates, so merging stops
at that entry and the state reached so far is kept (mutations are in place). -/
def mergeItems (api_package_name base_url : String) (st : MergeState)
    (group : String) : List (String × String) → MergeState × Bool
  | [] => (st, false)
  | (symbol, rel) :: rest =>
    match mergeEntry api_package_name base_url st group symbol rel with
    | none => (st, true)
    | some st' => mergeItems api_package_name base_url st' group rest

/-- The outer `for group, items in package.items()` loop of
`DocCog.update_single`: merge a whole decoded inventory.  Stops at the first
entry that raises, returning the state reached and `true`. -/
def mergePackage (api_package_name base_url : String) (st : MergeState) :
    List (String × List (String × String)) → MergeState × Bool
  | [] => (st, false)
  | (group, items) :: rest =>
    match mergeItems api_package_name base_url st group items with
    | (st', false) => mergePackage api_package_name base_url st' rest
    | (st', true) => (st', true)

/-- The failure branch of `DocCog.update_single` (`_cog.py` lines 207–216):
when `fetch_inventory` returns a falsy value, compute the retry delay in
seconds and add the package name to `self.scheduled_inventories`.
Note the source checks `inventory_url not in self.scheduled_inventories`
while adding `api_package_name` to that set. -/
def updateSingleFail (api_package_name inventory_url : String)
    (scheduled_inventories : List String) : Nat × List String :=
  let delay := if inventory_url ∉ scheduled_inventories then 2 * 60 else 5 * 60
  (delay, setInsert scheduled_inventories api_package_name)

/-! ### `CachedParser`: sequential operations

The parse queue holds `QueueItem (symbol, soup)` pairs whose `__eq__` compares
against a bare `DocItem` by its `symbol` field, so queue elements are modelled
by their `DocItem`; the attached soup plays no role in any claim. -/

/-- `CachedParser._move_to_front` (`_cog.py` lines 138–145):
`item_index = self._queue.index(item)` raises `ValueError` when the item is
not in the queue (modelled as `none`); otherwise the element is popped at that
index and appended at the end (where `_parse_queue`'s `pop()` drains next). -/
def move_to_front (queue : List DocItem) (item : DocItem) :
    Option (List DocItem) :=
  let item_index := queue.indexOf item
  if h : item_index < queue.length then
    some (queue.eraseIdx item_index ++ [queue.get ⟨item_index, h⟩])
  else none

/-- The fields of a `CachedParser` instance: `_queue`, `_page_symbols`,
`_item_futures` (a future is `none` while unresolved, `some md` once
resolved), and whether `_parse_task` currently holds a task handle.
The handle is opaque: the task object's internal state is not a field of the
class. -/
structure ParserState where
  queue : List DocItem
  page_symbols : List (String × List DocItem)
  item_futures : List (DocItem × Option String)
  parse_task : Bool
deriving DecidableEq, Repr

/-- `CachedParser.clear` (`_cog.py` lines 151–163) as a state transformer:
awaiting the outstanding futures does not change the fields; `.cancel()` is
called on the task object (not a field); then `_queue`, `_page_symbols` and
`_item_futures` are emptied.  `_parse_task` is never assigned by `clear`. -/
def CachedParser.clear (s : ParserState) : ParserState :=
  { s with queue := [], page_symbols := [], item_futures := [] }

/-! ### `CachedParser`: cooperative-concurrency transition system

`get_markdown`, `_parse_queue` and the `clear`-issued cancellation are
modelled as a labelled step function over explicit thread program counters.
An atomic step is the code between two `await` suspension points, except that
a worker iteration (pop, `get_symbol_markdown`, `await doc_cache.set`,
`future.set_result`) is taken as one step; the parts on either side of the
inner `await` touch disjoint state (queue/logs vs. futures), so no claim here
distinguishes the two halves. -/

/-- State of one entry of `_item_futures` in the concurrent model. -/
inductive Fut
  | pending
  | resolved (md : String)
deriving DecidableEq, Repr

/-- Lookup in an association list keyed by `DocItem` (Python `dict.get`). -/
def futLookup (m : List (DocItem × Fut)) (k : DocItem) : Option Fut :=
  match m with
  | [] => none
  | (k', v) :: rest => if k' = k then some v else futLookup rest k

/-- `future.set_result(md)`: the pending future stored under `k` becomes
resolved. -/
def futResolve (m : List (DocItem × Fut)) (k : DocItem) (md : String) :
    List (DocItem × Fut) :=
  match m with
  | [] => []
  | (k', v) :: rest =>
    if k' = k then (k', Fut.resolved md) :: futResolve rest k md
    else (k', v) :: futResolve rest k md

/-- Lookup in `_page_symbols` (Python `dict.get`). -/
def pageLookup (m : List (String × List DocItem)) (k : String) :
    Option (List DocItem) :=
  match m with
  | [] => none
  | (k', v) :: rest => if k' = k then some v else pageLookup rest k

/-- `del self._page_symbols[k]` after a successful membership check. -/
def pageErase (m : List (String × List DocItem)) (k : String) :
    List (String × List DocItem) :=
  m.filter fun p => p.1 ≠ k

/-- The shared `CachedParser` state in the concurrent model, together with
three ghost logs recording the observable events the claims count:
page fetches issued, `get_symbol_markdown` invocations, and future
creations. -/
structure CacheState where
  queue : List DocItem
  page_symbols : List (String × List DocItem)
  item_futures : List (DocItem × Fut)
  parse_task : Bool
  workerAlive : Bool
  cancelRequested : Bool
  fetchLog : List String
  extractLog : List DocItem
  createLog : List DocItem
deriving DecidableEq, Repr

/-- Program counter of one `get_markdown(d)` coroutine.
`fetching d syms` is the suspension inside
`async with bot_instance.http_session.get(...)` / `await response.text()`,
carrying the list `symbols_to_queue` captured before the await.
`errored` covers the uncaught `ValueError` of `_move_to_front` and the
uncaught `KeyError` of `del self._page_symbols[...]`. -/
inductive GmPc
  | start (d : DocItem)
  | fetching (d : DocItem) (syms : List DocItem)
  | waiting (d : DocItem)
  | done (d : DocItem) (md : String)
  | errored (d : DocItem)
deriving DecidableEq, Repr

/-- The tail of `get_markdown` after the page-fetch block (`_cog.py` lines
110–113): `self._move_to_front(doc_item)` (raising `ValueError` when absent),
then create the future if none exists, then suspend on `await
self._item_futures[doc_item]`. -/
def gmTail (c : CacheState) (d : DocItem) : CacheState × GmPc :=
  match move_to_front c.queue d with
  | none => (c, GmPc.errored d)
  | some q' =>
    let c' := { c with queue := q' }
    match futLookup c'.item_futures d with
    | some _ => (c', GmPc.waiting d)
    | none =>
      ({ c' with
          item_futures := (d, Fut.pending) :: c'.item_futures
          createLog := d :: c'.createLog }, GmPc.waiting d)

/-- One atomic step of a `get_markdown` coroutine (`_cog.py` lines 92–113).
From `start`: check `_page_symbols.get(url)`; a hit issues the HTTP request
and suspends (the `del` only happens after the response arrives); a miss runs
the tail synchronously.  From `fetching`: `self._queue.extend(...)` with the
captured list, then `del self._page_symbols[url]` (a `KeyError` if another
coroutine already deleted it — note the extend has already happened), then
start a worker if `self._parse_task is None`, then the tail.
From `waiting`: resume once the future is resolved. -/
def gmStep (c : CacheState) : GmPc → CacheState × GmPc
  | GmPc.start d =>
    match pageLookup c.page_symbols d.url with
    | some syms => ({ c with fetchLog := d.url :: c.fetchLog }, GmPc.fetching d syms)
    | none => gmTail c d
  | GmPc.fetching d syms =>
    let c1 := { c with queue := c.queue ++ syms }
    match pageLookup c1.page_symbols d.url with
    | some _ =>
      let c2 := { c1 with page_symbols := pageErase c1.page_symbols d.url }
      let c3 := if c2.parse_task then c2
        else { c2 with parse_task := true, workerAlive := true }
      gmTail c3 d
    | none => (c1, GmPc.errored d)
  | GmPc.waiting d =>
    match futLookup c.item_futures d with
    | some (Fut.resolved md) => (c, GmPc.done d md)
    | _ => (c, GmPc.waiting d)
  | GmPc.done d md => (c, GmPc.done d md)
  | GmPc.errored d => (c, GmPc.errored d)

/-- One step of the `_parse_queue` worker (`_cog.py` lines 115–136),
parameterised by the external extractor `f` (`none` models
`get_symbol_markdown` raising, which is caught and logged).  A pending
cancellation is delivered at the next suspension point and runs the
`finally`, as does the loop exiting on an empty queue; `pop()` takes the
*last* element.  `future.set_result` on an already-resolved future raises
`InvalidStateError` outside the `try`, escaping the loop — the `finally`
still resets `self._parse_task` to `None`. -/
def wkStep (f : DocItem → Option String) (c : CacheState) : CacheState :=
  if c.workerAlive = false then c
  else if c.cancelRequested then
    { c with workerAlive := false, parse_task := false, cancelRequested := false }
  else
    match c.queue.getLast? with
    | none => { c with workerAlive := false, parse_task := false }
    | some item =>
      let c1 := { c with
        queue := c.queue.dropLast
        extractLog := item :: c.extractLog }
      match f item with
      | none => c1
      | some md =>
        match futLookup c1.item_futures item with
        | none => c1
        | some Fut.pending =>
          { c1 with item_futures := futResolve c1.item_futures item md }
        | some (Fut.resolved _) =>
          { c1 with workerAlive := false, parse_task := false }

/-- The cancellation request issued by `CachedParser.clear`
(`if self._parse_task is not None: self._parse_task.cancel()`). -/
def cancelStep (c : CacheState) : CacheState :=
  if c.parse_task then { c with cancelRequested := true } else c

/-- Scheduler labels: two `get_markdown` coroutines, the worker, and the
cancel request. -/
inductive Lab
  | g1
  | g2
  | wk
  | cancel
deriving DecidableEq, Repr

/-- A configuration: the shared state plus the two coroutine counters. -/
structure Config where
  cache : CacheState
  pc1 : GmPc
  pc2 : GmPc
deriving DecidableEq, Repr

/-- One scheduled step of the whole system. -/
def step (f : DocItem → Option String) (c : Config) : Lab → Config
  | Lab.g1 =>
    let r := gmStep c.cache c.pc1
    { c with cache := r.1, pc1 := r.2 }
  | Lab.g2 =>
    let r := gmStep c.cache c.pc2
    { c with cache := r.1, pc2 := r.2 }
  | Lab.wk => { c with cache := wkStep f c.cache }
  | Lab.cancel => { c with cache := cancelStep c.cache }

/-- Run a finite schedule. -/
def run (f : DocItem → Option String) (c : Config) : List Lab → Config
  | [] => c
  | l :: ls => run f (step f c l) ls

/-! ### Concrete instances used by the individual scenarios -/

/-- The incumbent of the Rule C scenario: `otherlib`'s `open`. -/
def otherlibOpen : DocItem :=
  ⟨"otherlib", "function", "https://other.example/", "io.html", "open"⟩

/-- Rule C scenario start state: `table["open"] = otherlib.open`. -/
def c1Start : MergeState := ⟨[("open", otherlibOpen)], [], []⟩

/-- Rule C scenario: priority package `python` merges symbol `open`. -/
def c1After : MergeState :=
  (mergeEntry "python" "https://docs.python.org/3/" c1Start "py:function"
    "open" "functions.html#open").getD c1Start

/-- The `DocItem` the Rule C merge stores under the bare name `open`. -/
def pythonOpen : DocItem :=
  ⟨"python", "function", "https://docs.python.org/3/", "functions.html", "open"⟩

/-- Three symbols living on one documentation page. -/
def itemA : DocItem := ⟨"pkg", "class", "https://docs.example/", "page.html", "A"⟩

/-- See `itemA`. -/
def itemB : DocItem := ⟨"pkg", "class", "https://docs.example/", "page.html", "B"⟩

/-- See `itemA`. -/
def itemC : DocItem := ⟨"pkg", "class", "https://docs.example/", "page.html", "C"⟩

/-- The page shared by `itemA`, `itemB`, `itemC`. -/
def pageUrl : String := "https://docs.example/page.html"

/-- An extractor that always succeeds. -/
def extractOk : DocItem → Option String := fun _ => some "md"

/-- A `CacheState` with nothing queued, fetched or pending. -/
def emptyCache : CacheState where
  queue := []
  page_symbols := []
  item_futures := []
  parse_task := false
  workerAlive := false
  cancelRequested := false
  fetchLog := []
  extractLog := []
  createLog := []

/-- Page-batching scenario: one unfetched page with symbols A, B, C; one
caller asks for A, a second for B. -/
def c6Start : Config where
  cache := { emptyCache with page_symbols := [(pageUrl, [itemA, itemB, itemC])] }
  pc1 := GmPc.start itemA
  pc2 := GmPc.start itemB

/-- Single-flight scenario: one unfetched page holding only A; both callers
ask for A. -/
def c7Start : Config where
  cache := { emptyCache with page_symbols := [(pageUrl, [itemA])] }
  pc1 := GmPc.start itemA
  pc2 := GmPc.start itemA

/-- Two callers for the same location `x` whose page has already been fetched:
`x` sits in the parse queue once and the worker is running. -/
def sameLocStart (x : DocItem) : Config where
  cache := { emptyCache with queue := [x], parse_task := true, workerAlive := true }
  pc1 := GmPc.start x
  pc2 := GmPc.start x

/-- The race of the page-batching scenario: the second caller is scheduled
while the first caller's page fetch is still in flight. -/
def c6Race : Config := run extractOk c6Start [Lab.g1, Lab.g2, Lab.g1, Lab.g2]

/-- The race of the single-flight scenario: both callers for `itemA` start
while the page is unfetched, then the worker drains the queue. -/
def c7Race : Config :=
  run extractOk c7Start [Lab.g1, Lab.g2, Lab.g1, Lab.g2, Lab.wk, Lab.wk]

/-- The canonical single-flight interleaving on an already-fetched page:
both callers run, the worker parses, both callers resume. -/
def c7Canonical : Config :=
  run extractOk (sameLocStart itemA) [Lab.g1, Lab.g2, Lab.wk, Lab.g1, Lab.g2]

/-- An inventory with a malformed group identifier (`"badgroup"`, no colon)
between two well-formed groups. -/
def c4Package : List (String × List (String × String)) :=
  [("py:class", [("Good1", "a.html")]),
    ("badgroup", [("Bad", "b.html")]),
    ("py:class", [("Good2", "c.html")])]

/-- Merging `c4Package` into an empty table. -/
def c4Result : MergeState × Bool :=
  mergePackage "libx" "https://x.example/" ⟨[], [], []⟩ c4Package

/-- Rule A clobbering scenario: the incumbent of the bare name `bind`. -/
def libBBind : DocItem :=
  ⟨"libB", "function", "https://libb.example/", "api.html", "bind"⟩

/-- Rule A clobbering scenario: an older entry already stored under the
composite name `label.bind`. -/
def oldLabelBind : DocItem :=
  ⟨"libC", "label", "https://libc.example/", "misc.html", "bind-label"⟩

/-- Rule A clobbering scenario start state. -/
def c10AStart : MergeState :=
  ⟨[("bind", libBBind), ("label.bind", oldLabelBind)], [], []⟩

/-- Rule A clobbering scenario: `libA` merges `bind` with kind `label`. -/
def c10AAfter : MergeState :=
  (mergeEntry "libA" "https://liba.example/" c10AStart "std:label" "bind"
    "ref.html#bind").getD c10AStart

/-- Rule D clobbering scenario: the incumbent of the bare name `x`. -/
def incX : DocItem :=
  ⟨"libB", "function", "https://libb.example/", "api.html", "x"⟩

/-- Rule D clobbering scenario: an older entry already stored under the
composite name `libA.x`. -/
def oldAltX : DocItem :=
  ⟨"libD", "function", "https://libd.example/", "d.html", "x"⟩

/-- Rule D clobbering scenario start state. -/
def c10DStart : MergeState := ⟨[("x", incX), ("libA.x", oldAltX)], [], []⟩

/-- Rule D clobbering scenario: non-priority `libA` merges `x`. -/
def c10DAfter : MergeState :=
  (mergeEntry "libA" "https://liba.example/" c10DStart "py:function" "x"
    "x.html#x").getD c10DStart

/-- Rule B re-derivation scenario: the incumbent of `y`, of force-prefix kind
`label`. -/
def incLabelY : DocItem :=
  ⟨"libC", "label", "https://libc.example/", "c.html", "y"⟩

/-- Rule B re-derivation scenario: the entry already stored under `label.y`,
whose name is a known alternate. -/
def otherAltY : DocItem :=
  ⟨"libE", "label", "https://libe.example/", "e.html", "y"⟩

/-- Rule B re-derivation scenario start state. -/
def c10BStart : MergeState :=
  ⟨[("y", incLabelY), ("label.y", otherAltY)], ["label.y"], []⟩

/-- Rule B re-derivation scenario: `libB` merges `y` with kind `function`. -/
def c10BAfter : MergeState :=
  (mergeEntry "libB" "https://libb.example/" c10BStart "py:function" "y"
    "y.html#y").getD c10BStart

/-! ### Invariants of the transition system -/

/-- Program counters reachable by a `get_markdown(x)` coroutine whose page is
already fetched: it never enters the fetching branch. -/
def PcOk (x : DocItem) : GmPc → Prop
  | GmPc.start d => d = x
  | GmPc.fetching _ _ => False
  | GmPc.waiting d => d = x
  | GmPc.done d _ => d = x
  | GmPc.errored d => d = x

/-- Cache part of the single-flight invariant: the page index stays empty,
the queue holds only `x`, the number of queued copies plus extractor
invocations of `x` never exceeds one, at most one future creation for `x` is
ever logged, and none is logged while no future for `x` exists. -/
def CInv (x : DocItem) (s : CacheState) : Prop :=
  s.page_symbols = [] ∧
  (∀ y ∈ s.queue, y = x) ∧
  s.queue.count x + s.extractLog.count x ≤ 1 ∧
  s.createLog.count x ≤ 1 ∧
  (futLookup s.item_futures x = none → s.createLog.count x = 0)

/-- Invariant of the two-callers-one-fetched-location system. -/
def SameLocInv (x : DocItem) (c : Config) : Prop :=
  CInv x c.cache ∧ PcOk x c.pc1 ∧ PcOk x c.pc2

/-- Worker-handle invariant: whenever no worker coroutine is alive, the
`_parse_task` handle is `None`. -/
def WkInv (s : CacheState) : Prop :=
  s.workerAlive = false → s.parse_task = false

/-! ## Helper lemmas -/

/-- Inserting under `k` makes `k` map to `v`. -/
theorem mapLookup_mapInsert_self (m : List (String × DocItem)) (k : String)
    (v : DocItem) : mapLookup (mapInsert m k v) k = some v := by
  simp [mapInsert, mapLookup]

/-- Erasing key `k` leaves every other key's binding unchanged. -/
theorem mapLookup_mapErase_ne (m : List (String × DocItem)) (k k' : String)
    (h : k' ≠ k) :
    mapLookup (mapErase m k) k' = mapLookup m k' := by
  induction m with
  | nil => rfl
  | cons p rest ih =>
    obtain ⟨a, b⟩ := p
    have hks : k ≠ k' := Ne.symm h
    by_cases ha : a = k
    · simp [mapErase, mapLookup, ha, hks, ih]
    · by_cases hq : a = k'
      · simp [mapErase, mapLookup, ha, hq, h]
      · simp [mapErase, mapLookup, ha, hq, ih]

/-- Inserting under `k` leaves every other key's binding unchanged. -/
theorem mapLookup_mapInsert_ne (m : List (String × DocItem)) (k k' : String)
    (v : DocItem) (h : k' ≠ k) :
    mapLookup (mapInsert m k v) k' = mapLookup m k' := by
  simp only [mapInsert, mapLookup, if_neg (Ne.symm h)]
  exact mapLookup_mapErase_ne m k k' h

/-- `set.add` puts the element in. -/
theorem mem_setInsert_self (s : List String) (x : String) :
    x ∈ setInsert s x := by
  by_cases h : x ∈ s <;> simp [setInsert, h]

/-- Membership after `set.add`. -/
theorem mem_setInsert_iff (s : List String) (x y : String) :
    y ∈ setInsert s x ↔ y = x ∨ y ∈ s := by
  by_cases h : x ∈ s
  · simp only [setInsert, if_pos h]
    exact ⟨Or.inr, fun h2 => h2.elim (fun e => e ▸ h) id⟩
  · simp [setInsert, h, List.mem_cons]

/-- A dotted composite name is strictly longer than its tail, hence differs
from it. -/
theorem dot_append_ne (a b : String) : a ++ "." ++ b ≠ b := by
  intro h
  have h2 := congrArg String.length h
  rw [String.length_append, String.length_append] at h2
  have h3 : ("." : String).length = 1 := rfl
  omega

/-- Splitting at a character that does not occur returns the whole list. -/
theorem splitChar_not_mem (c : Char) (l : List Char) (h : c ∉ l) :
    splitChar c l = [l] := by
  induction l with
  | nil => rfl
  | cons x xs ih =>
    have hx : x ≠ c := fun e => h (e ▸ List.mem_cons_self x xs)
    have hxs : c ∉ xs := fun m => h (List.mem_cons_of_mem x m)
    rw [splitChar, ih hxs]
    simp [hx]

/-- Popping the element at index `i` and re-appending it preserves counts. -/
theorem count_eraseIdx_get (q : List DocItem) (i : Nat) (h : i < q.length)
    (y : DocItem) :
    ((q.eraseIdx i) ++ [q.get ⟨i, h⟩]).count y = q.count y := by
  induction q generalizing i with
  | nil => simp at h
  | cons a t ih =>
    cases i with
    | zero => simp [List.count_append, List.count_cons]
    | succ j =>
      have hj : j < t.length := by simpa using h
      have hrec := ih j hj
      simp only [List.eraseIdx, List.get, List.cons_append, List.count_cons, hrec]

/-- `_move_to_front` only permutes the queue: counts are preserved. -/
theorem move_to_front_count (q : List DocItem) (d : DocItem)
    (q' : List DocItem) (h : move_to_front q d = some q') (y : DocItem) :
    q'.count y = q.count y := by
  rw [move_to_front] at h
  split at h
  · cases h
    exact count_eraseIdx_get q _ _ y
  · cases h

/-- `_move_to_front` introduces no new elements. -/
theorem move_to_front_mem (q : List DocItem) (d : DocItem)
    (q' : List DocItem) (h : move_to_front q d = some q') (y : DocItem)
    (hy : y ∈ q') : y ∈ q := by
  rw [move_to_front] at h
  split at h
  · cases h
    rcases List.mem_append.mp hy with h1 | h2
    · exact (List.eraseIdx_sublist q _).mem h1
    · rcases List.mem_singleton.mp h2 with rfl
      exact List.get_mem q _ _
  · cases h

/-- Resolving a future neither adds nor removes keys. -/
theorem futLookup_futResolve_none (m : List (DocItem × Fut)) (k : DocItem)
    (md : String) (y : DocItem) :
    futLookup (futResolve m k md) y = none ↔ futLookup m y = none := by
  induction m with
  | nil => simp [futResolve, futLookup]
  | cons p rest ih =>
    obtain ⟨a, v⟩ := p
    by_cases hp : a = k
    · subst hp
      by_cases hy : a = y
      · subst hy
        simp [futResolve, futLookup]
      · simp [futResolve, futLookup, hy, ih]
    · by_cases hy : a = y
      · subst hy
        simp [futResolve, futLookup, hp]
      · simp [futResolve, futLookup, hp, hy, ih]

/-- A list ending in `a` splits as `dropLast ++ [a]`. -/
theorem getLast?_decomp (q : List DocItem) (a : DocItem)
    (h : q.getLast? = some a) : q = q.dropLast ++ [a] := by
  induction q with
  | nil => cases h
  | cons b t ih =>
    cases t with
    | nil => simp_all [List.getLast?]
    | cons c s =>
      have h' : (c :: s).getLast? = some a := by
        simpa [List.getLast?_cons_cons] using h
      have hrec := ih h'
      conv_lhs => rw [hrec]
      rfl

/-- The post-fetch tail of `get_markdown` never touches the worker flags. -/
theorem gmTail_flags (c : CacheState) (d : DocItem) :
    (gmTail c d).1.workerAlive = c.workerAlive ∧
    (gmTail c d).1.parse_task = c.parse_task := by
  rw [gmTail]
  split
  · exact ⟨rfl, rfl⟩
  · try dsimp only
    split <;> exact ⟨rfl, rfl⟩

/-- A `get_markdown` step either leaves the worker flags unchanged or sets
both (it starts a worker). -/
theorem gmStep_flags (c : CacheState) (pc : GmPc) :
    ((gmStep c pc).1.workerAlive = c.workerAlive ∧
      (gmStep c pc).1.parse_task = c.parse_task) ∨
    ((gmStep c pc).1.workerAlive = true ∧ (gmStep c pc).1.parse_task = true) := by
  cases pc with
  | start d =>
    rw [gmStep]
    split
    · exact Or.inl ⟨rfl, rfl⟩
    · exact Or.inl (gmTail_flags c d)
  | fetching d syms =>
    rw [gmStep]
    try dsimp only
    split
    · try dsimp only
      split
      · left
        exact gmTail_flags _ d
      · right
        have h := gmTail_flags
          { queue := c.queue ++ syms
            page_symbols := pageErase c.page_symbols d.url
            item_futures := c.item_futures
            parse_task := true
            workerAlive := true
            cancelRequested := c.cancelRequested
            fetchLog := c.fetchLog
            extractLog := c.extractLog
            createLog := c.createLog } d
        exact ⟨h.1, h.2⟩
    · exact Or.inl ⟨rfl, rfl⟩
  | waiting d =>
    rw [gmStep]
    split
    · exact Or.inl ⟨rfl, rfl⟩
    · exact Or.inl ⟨rfl, rfl⟩
  | done d md => exact Or.inl ⟨rfl, rfl⟩
  | errored d => exact Or.inl ⟨rfl, rfl⟩

/-- A worker step either keeps the worker flags or terminates, resetting the
handle in the same step (the `finally`). -/
theorem wkStep_flags (f : DocItem → Option String) (c : CacheState) :
    ((wkStep f c).workerAlive = c.workerAlive ∧
      (wkStep f c).parse_task = c.parse_task) ∨
    ((wkStep f c).workerAlive = false ∧ (wkStep f c).parse_task = false) := by
  rw [wkStep]
  split
  · exact Or.inl ⟨rfl, rfl⟩
  · split
    · exact Or.inr ⟨rfl, rfl⟩
    · split
      · exact Or.inr ⟨rfl, rfl⟩
      · try dsimp only
        split
        · exact Or.inl ⟨rfl, rfl⟩
        · split
          · exact Or.inl ⟨rfl, rfl⟩
          · exact Or.inl ⟨rfl, rfl⟩
          · exact Or.inr ⟨rfl, rfl⟩

/-- A cancellation request never touches the worker flags. -/
theorem cancelStep_flags (c : CacheState) :
    (cancelStep c).workerAlive = c.workerAlive ∧
    (cancelStep c).parse_task = c.parse_task := by
  rw [cancelStep]
  split <;> exact ⟨rfl, rfl⟩

/-- The post-fetch tail of `get_markdown` preserves the single-flight cache
invariant and leaves the coroutine at a reachable counter. -/
theorem gmTail_CInv (x : DocItem) (c : CacheState) (h : CInv x c) :
    CInv x (gmTail c x).1 ∧ PcOk x (gmTail c x).2 := by
  obtain ⟨hpg, hqonly, hcnt, hcreate, hcnone⟩ := h
  cases hm : move_to_front c.queue x with
  | none =>
    simp only [gmTail, hm]
    exact ⟨⟨hpg, hqonly, hcnt, hcreate, hcnone⟩, rfl⟩
  | some q' =>
    cases hfut : futLookup c.item_futures x with
    | some v =>
      simp only [gmTail, hm, hfut]
      refine ⟨⟨hpg, ?_, ?_, hcreate, ?_⟩, rfl⟩
      · intro y hy
        exact hqonly y (move_to_front_mem c.queue x q' hm y hy)
      · show q'.count x + c.extractLog.count x ≤ 1
        rw [move_to_front_count c.queue x q' hm x]
        exact hcnt
      · intro hnone
        rw [show futLookup c.item_futures x = some v from hfut] at hnone
        cases hnone
    | none =>
      simp only [gmTail, hm, hfut]
      have hzero : c.createLog.count x = 0 := hcnone hfut
      refine ⟨⟨hpg, ?_, ?_, ?_, ?_⟩, rfl⟩
      · intro y hy
        exact hqonly y (move_to_front_mem c.queue x q' hm y hy)
      · show q'.count x + c.extractLog.count x ≤ 1
        rw [move_to_front_count c.queue x q' hm x]
        exact hcnt
      · show (x :: c.createLog).count x ≤ 1
        simp [List.count_cons, hzero]
      · intro hnone
        show (x :: c.createLog).count x = 0
        exfalso
        simp [futLookup] at hnone

/-- A `get_markdown` step preserves the single-flight invariant when the
caller's page is already fetched. -/
theorem gmStep_CInv (x : DocItem) (c : CacheState) (pc : GmPc)
    (h : CInv x c) (hpc : PcOk x pc) :
    CInv x (gmStep c pc).1 ∧ PcOk x (gmStep c pc).2 := by
  cases pc with
  | start d =>
    have hd : d = x := hpc
    subst hd
    have hnone : pageLookup c.page_symbols d.url = none := by
      rw [h.1]
      rfl
    rw [gmStep, hnone]
    exact gmTail_CInv d c h
  | fetching d syms => cases hpc
  | waiting d =>
    have hd : d = x := hpc
    subst hd
    rw [gmStep]
    cases hfut : futLookup c.item_futures d with
    | none => exact ⟨h, rfl⟩
    | some v =>
      cases v with
      | pending => exact ⟨h, rfl⟩
      | resolved md => exact ⟨h, rfl⟩
  | done d md => exact ⟨h, hpc⟩
  | errored d => exact ⟨h, hpc⟩

/-- A worker step preserves the single-flight invariant: popping the queued
copy of `x` trades one queue occurrence for one extractor invocation. -/
theorem wkStep_CInv (x : DocItem) (f : DocItem → Option String)
    (c : CacheState) (h : CInv x c) : CInv x (wkStep f c) := by
  obtain ⟨hpg, hqonly, hcnt, hcreate, hcnone⟩ := h
  rw [wkStep]
  split
  · exact ⟨hpg, hqonly, hcnt, hcreate, hcnone⟩
  · split
    · exact ⟨hpg, hqonly, hcnt, hcreate, hcnone⟩
    · cases hlast : c.queue.getLast? with
      | none => exact ⟨hpg, hqonly, hcnt, hcreate, hcnone⟩
      | some item =>
        have hdecomp := getLast?_decomp c.queue item hlast
        have hitem : item = x := by
          apply hqonly
          rw [hdecomp]
          exact List.mem_append_right _ (List.mem_singleton_self item)
        subst hitem
        have hcq : c.queue.count item = c.queue.dropLast.count item + 1 := by
          conv_lhs => rw [hdecomp]
          simp [List.count_append]
        have hqonly' : ∀ y ∈ c.queue.dropLast, y = item := by
          intro y hy
          apply hqonly
          rw [hdecomp]
          exact List.mem_append_left _ hy
        have hcnt' :
            c.queue.dropLast.count item + (item :: c.extractLog).count item ≤ 1 := by
          have he : (item :: c.extractLog).count item =
              c.extractLog.count item + 1 := by simp
          omega
        try dsimp only
        cases hf : f item with
        | none => exact ⟨hpg, hqonly', hcnt', hcreate, hcnone⟩
        | some md =>
          cases hfut : futLookup c.item_futures item with
          | none => exact ⟨hpg, hqonly', hcnt', hcreate, hcnone⟩
          | some v =>
            cases v with
            | pending =>
              refine ⟨hpg, hqonly', hcnt', hcreate, ?_⟩
              intro hnone
              rw [futLookup_futResolve_none] at hnone
              exact hcnone hnone
            | resolved md0 => exact ⟨hpg, hqonly', hcnt', hcreate, hcnone⟩

/-- A cancellation request preserves the single-flight invariant. -/
theorem cancelStep_CInv (x : DocItem) (c : CacheState) (h : CInv x c) :
    CInv x (cancelStep c) := by
  obtain ⟨hpg, hqonly, hcnt, hcreate, hcnone⟩ := h
  rw [cancelStep]
  split
  · exact ⟨hpg, hqonly, hcnt, hcreate, hcnone⟩
  · exact ⟨hpg, hqonly, hcnt, hcreate, hcnone⟩

/-- Every scheduled step preserves the two-caller single-flight invariant. -/
theorem step_SameLocInv (x : DocItem) (f : DocItem → Option String)
    (c : Config) (l : Lab) (h : SameLocInv x c) :
    SameLocInv x (step f c l) := by
  obtain ⟨hc, h1, h2⟩ := h
  cases l with
  | g1 =>
    have hg := gmStep_CInv x c.cache c.pc1 hc h1
    exact ⟨hg.1, hg.2, h2⟩
  | g2 =>
    have hg := gmStep_CInv x c.cache c.pc2 hc h2
    exact ⟨hg.1, h1, hg.2⟩
  | wk => exact ⟨wkStep_CInv x f c.cache hc, h1, h2⟩
  | cancel => exact ⟨cancelStep_CInv x c.cache hc, h1, h2⟩

/-- The invariant holds along every schedule. -/
theorem run_SameLocInv (x : DocItem) (f : DocItem → Option String)
    (sched : List Lab) :
    ∀ c : Config, SameLocInv x c → SameLocInv x (run f c sched) := by
  induction sched with
  | nil => exact fun c h => h
  | cons l ls ih =>
    intro c h
    exact ih (step f c l) (step_SameLocInv x f c l h)

/-- The invariant holds at the two-caller start state. -/
theorem sameLocStart_inv (x : DocItem) : SameLocInv x (sameLocStart x) := by
  refine ⟨⟨rfl, ?_, ?_, ?_, ?_⟩, rfl, rfl⟩
  · intro y hy
    simpa [sameLocStart, emptyCache] using hy
  · simp [sameLocStart, emptyCache]
  · simp [sameLocStart, emptyCache]
  · intro _
    simp [sameLocStart, emptyCache]

/-! ## Claim theorems -/

/-- C1 counterexample.  Collision Rule C on the spec's own scenario: incumbent
`table["open"] = otherlib.open`, priority package `python` merges `open`.
After the merge the bare name maps to the new entry and `otherlib.open` to the
incumbent, and `"open"` is in the alternate-name set — but `"otherlib.open"`
is NOT: line 241 of `_cog.py` adds only the bare `symbol` to
`renamed_symbols`, never the composite name, refuting the claim that both
names are members of the set. -/
theorem ruleC_composite_not_alternate_cex :
    mapLookup c1After.doc_symbols "open" = some pythonOpen ∧
    mapLookup c1After.doc_symbols "otherlib.open" = some otherlibOpen ∧
    "open" ∈ c1After.renamed_symbols ∧
    "otherlib.open" ∉ c1After.renamed_symbols := by decide

/-- C1 (amended).  Collision Rule C: when a priority package merges a symbol
whose bare name has a non-priority incumbent (neither kind force-prefixed),
the bare name maps to the new entry, `"<incumbent.package>.<rawName>"` maps to
the incumbent, and the BARE name is added to the alternate-name set; the
composite name is not added (it is absent afterwards whenever it was absent
before). -/
theorem ruleC_priority_merge (pkg base_url group group_name symbol rel : String)
    (st : MergeState) (orig : DocItem)
    (hslash : '/' ∉ symbol.data)
    (hgroup : (pySplit group ':').get? 1 = some group_name)
    (hlook : mapLookup st.doc_symbols symbol = some orig)
    (hnotA : group_name ∉ FORCE_PREFIX_GROUPS)
    (hnotB : orig.group ∉ FORCE_PREFIX_GROUPS)
    (hC : pkg ∈ PRIORITY_PACKAGES) :
    ∃ st', mergeEntry pkg base_url st group symbol rel = some st' ∧
      mapLookup st'.doc_symbols symbol =
        some ⟨pkg, group_name, base_url, (partitionHash rel).1, (partitionHash rel).2⟩ ∧
      mapLookup st'.doc_symbols (orig.package ++ "." ++ symbol) = some orig ∧
      symbol ∈ st'.renamed_symbols ∧
      ((orig.package ++ "." ++ symbol) ∉ st.renamed_symbols →
        (orig.package ++ "." ++ symbol) ∉ st'.renamed_symbols) := by
  rw [mergeEntry, if_neg hslash, hgroup]
  simp only [hlook, if_neg hnotA, if_neg hnotB, if_pos hC]
  refine ⟨_, rfl, ?_, ?_, ?_, ?_⟩
  · exact mapLookup_mapInsert_self _ _ _
  · rw [mapLookup_mapInsert_ne _ _ _ _ (dot_append_ne orig.package symbol)]
    exact mapLookup_mapInsert_self _ _ _
  · exact mem_setInsert_self _ _
  · intro hpre hmem
    rcases (mem_setInsert_iff _ _ _).mp hmem with he | hin
    · exact dot_append_ne orig.package symbol he
    · exact hpre hin

/-- C1 witness: the amended Rule C statement at the spec's own scenario. -/
theorem ruleC_priority_merge_witness :
    ∃ st', mergeEntry "python" "https://docs.python.org/3/" c1Start
        "py:function" "open" "functions.html#open" = some st' ∧
      mapLookup st'.doc_symbols "open" =
        some ⟨"python", "function", "https://docs.python.org/3/",
          (partitionHash "functions.html#open").1,
          (partitionHash "functions.html#open").2⟩ ∧
      mapLookup st'.doc_symbols (otherlibOpen.package ++ "." ++ "open") =
        some otherlibOpen ∧
      "open" ∈ st'.renamed_symbols ∧
      ((otherlibOpen.package ++ "." ++ "open") ∉ c1Start.renamed_symbols →
        (otherlibOpen.package ++ "." ++ "open") ∉ st'.renamed_symbols) :=
  ruleC_priority_merge "python" "https://docs.python.org/3/" "py:function"
    "function" "open" "functions.html#open" c1Start otherlibOpen
    (by decide) (by decide) (by decide) (by decide) (by decide) (by decide)

/-- C2.  Retry backoff: the source computes the delay from
`inventory_url not in self.scheduled_inventories` (line 208) but adds
`api_package_name` to that set (line 215), so whenever the inventory URL
differs from the package name — always, for real URLs — the second
consecutive failure is also scheduled at 2 minutes, never at the documented
5 minutes.  This contradicts `update_single`'s own docstring
("2 minutes on the first attempt, and 5 minutes on subsequent attempts"). -/
theorem retry_backoff_always_two_minutes (pkg url : String)
    (scheduled : List String) (h1 : url ∉ scheduled) (h2 : url ≠ pkg) :
    (updateSingleFail pkg url scheduled).1 = 2 * 60 ∧
    (updateSingleFail pkg url (updateSingleFail pkg url scheduled).2).1 = 2 * 60 := by
  have hsecond : url ∉ (updateSingleFail pkg url scheduled).2 := by
    intro hmem
    rw [updateSingleFail] at hmem
    rcases (mem_setInsert_iff _ _ _).mp hmem with he | hin
    · exact h2 he
    · exact h1 hin
  constructor
  · rw [updateSingleFail, if_pos h1]
  · rw [updateSingleFail, if_pos hsecond]

/-- C2 witness: two consecutive failures for package `python` with its real
inventory URL both schedule the retry at 120 seconds. -/
theorem retry_backoff_always_two_minutes_witness :
    (updateSingleFail "python" "https://docs.python.org/3/objects.inv" []).1 = 2 * 60 ∧
    (updateSingleFail "python" "https://docs.python.org/3/objects.inv"
      (updateSingleFail "python" "https://docs.python.org/3/objects.inv" []).2).1 = 2 * 60 :=
  retry_backoff_always_two_minutes "python"
    "https://docs.python.org/3/objects.inv" [] (by decide) (by decide)

/-- C3.  Reprioritization is NOT total: `_move_to_front` computes
`self._queue.index(item)`, which raises `ValueError` when the location is not
in the queue (here: the empty queue), instead of completing as a no-op.  A
location that is present is moved to the end of the list, which is where
`_parse_queue`'s `pop()` drains next (most-recently-requested-first). -/
theorem move_to_front_absent_raises :
    move_to_front [] itemA = none ∧
    move_to_front [itemB, itemC] itemA = none ∧
    move_to_front [itemB, itemA, itemC] itemA = some [itemB, itemC, itemA] := by
  decide

/-- C4 counterexample.  A package whose middle group identifier has no colon:
the merge aborts there (`group.split(":")[1]` raises `IndexError`, uncaught),
the earlier entry `Good1` is merged but the later entry `Good2` never is —
refuting the claim that the malformed entry is skipped and the merge
continues. -/
theorem malformed_group_abort_cex :
    c4Result.2 = true ∧
    (mapLookup c4Result.1.doc_symbols "Good1").isSome = true ∧
    mapLookup c4Result.1.doc_symbols "Good2" = none := by decide

/-- C4 (amended).  An inventory entry whose group identifier contains no colon
makes the whole remaining package merge abort at that entry with an uncaught
`IndexError`; the entry is not skipped and no later entry of the group is
processed (the state is exactly what the earlier entries produced). -/
theorem malformed_group_aborts_merge (pkg base_url group sym rel : String)
    (st : MergeState) (rest : List (String × String))
    (hslash : '/' ∉ sym.data) (hcolon : ':' ∉ group.data) :
    mergeItems pkg base_url st group ((sym, rel) :: rest) = (st, true) := by
  have hsplit : pySplit group ':' = [group.data.asString] := by
    rw [pySplit, splitChar_not_mem ':' group.data hcolon]
    rfl
  have hnone : (pySplit group ':').get? 1 = none := by rw [hsplit]; rfl
  rw [mergeItems, mergeEntry, if_neg hslash, hnone]

/-- C4 witness: the amended statement at the malformed middle group of the
concrete package. -/
theorem malformed_group_aborts_merge_witness :
    mergeItems "libx" "https://x.example/"
      (mergePackage "libx" "https://x.example/" ⟨[], [], []⟩
        [("py:class", [("Good1", "a.html")])]).1
      "badgroup" [("Bad", "b.html")] =
    ((mergePackage "libx" "https://x.example/" ⟨[], [], []⟩
        [("py:class", [("Good1", "a.html")])]).1, true) :=
  malformed_group_aborts_merge "libx" "https://x.example/" "badgroup" "Bad"
    "b.html" _ [] (by decide) (by decide)

/-- C5.  Collision Rule A: when the new entry's kind is in the force-prefix
kind set and the bare name has an incumbent, the new entry is stored under
`"<kind>.<rawName>"`, that composite name is marked alternate, and the bare
name still maps to the unchanged incumbent. -/
theorem ruleA_forced_group_merge (pkg base_url group group_name symbol rel : String)
    (st : MergeState) (orig : DocItem)
    (hslash : '/' ∉ symbol.data)
    (hgroup : (pySplit group ':').get? 1 = some group_name)
    (hlook : mapLookup st.doc_symbols symbol = some orig)
    (hA : group_name ∈ FORCE_PREFIX_GROUPS) :
    ∃ st', mergeEntry pkg base_url st group symbol rel = some st' ∧
      mapLookup st'.doc_symbols (group_name ++ "." ++ symbol) =
        some ⟨pkg, group_name, base_url, (partitionHash rel).1, (partitionHash rel).2⟩ ∧
      mapLookup st'.doc_symbols symbol = some orig ∧
      (group_name ++ "." ++ symbol) ∈ st'.renamed_symbols := by
  rw [mergeEntry, if_neg hslash, hgroup]
  simp only [hlook, if_pos hA]
  refine ⟨_, rfl, ?_, ?_, ?_⟩
  · exact mapLookup_mapInsert_self _ _ _
  · rw [mapLookup_mapInsert_ne _ _ _ _ (fun e => dot_append_ne group_name symbol e.symm)]
    exact hlook
  · exact mem_setInsert_self _ _

/-- C5 witness: Rule A at the spec's own scenario — `libA` merges `bind` of
kind `label` against incumbent `bind` of kind `func` from `libB`. -/
theorem ruleA_forced_group_merge_witness :
    ∃ st', mergeEntry "libA" "https://liba.example/"
        ⟨[("bind", ⟨"libB", "func", "https://libb.example/", "api.html", "bind"⟩)], [], []⟩
        "std:label" "bind" "ref.html#bind" = some st' ∧
      mapLookup st'.doc_symbols ("label" ++ "." ++ "bind") =
        some ⟨"libA", "label", "https://liba.example/",
          (partitionHash "ref.html#bind").1, (partitionHash "ref.html#bind").2⟩ ∧
      mapLookup st'.doc_symbols "bind" =
        some ⟨"libB", "func", "https://libb.example/", "api.html", "bind"⟩ ∧
      ("label" ++ "." ++ "bind") ∈ st'.renamed_symbols :=
  ruleA_forced_group_merge "libA" "https://liba.example/" "std:label" "label"
    "bind" "ref.html#bind"
    ⟨[("bind", ⟨"libB", "func", "https://libb.example/", "api.html", "bind"⟩)], [], []⟩
    ⟨"libB", "func", "https://libb.example/", "api.html", "bind"⟩
    (by decide) (by decide) (by decide) (by decide)

/-- C8.  `clear()` on a cache whose `_page_symbols`, `_queue` and
`_item_futures` are all empty leaves the fields unchanged (`_parse_task` is
never assigned by `clear`), and running `clear()` twice equals running it
once. -/
theorem clear_noop_and_idempotent (s : ParserState)
    (hq : s.queue = []) (hp : s.page_symbols = []) (hf : s.item_futures = []) :
    CachedParser.clear s = s ∧
    (∀ t : ParserState, CachedParser.clear (CachedParser.clear t) = CachedParser.clear t) := by
  constructor
  · cases s
    simp only at hq hp hf
    rw [CachedParser.clear]
    simp [hq, hp, hf]
  · intro t
    rfl

/-- C8 witness: the no-op and idempotence at a concrete empty cache with a
live worker handle. -/
theorem clear_noop_and_idempotent_witness :
    CachedParser.clear ⟨[], [], [], true⟩ = (⟨[], [], [], true⟩ : ParserState) ∧
    (∀ t : ParserState, CachedParser.clear (CachedParser.clear t) = CachedParser.clear t) :=
  clear_noop_and_idempotent ⟨[], [], [], true⟩ rfl rfl rfl

/-- C6.  Page batching: a single request on an unfetched page issues one
fetch, moves all three queued locations into the parse queue, removes the URL
from the page index and starts the worker — but a second caller scheduled
while the first fetch is in flight still sees the URL in `_page_symbols`
(the `del` at line 104 only runs after `await response.text()`) and issues a
SECOND fetch of the same page, then dies with an uncaught `KeyError` at the
`del`, refuting the never-a-second-fetch / independent-resolution claim. -/
theorem page_batching_double_fetch :
    (run extractOk c6Start [Lab.g1]).cache.fetchLog = [pageUrl] ∧
    (run extractOk c6Start [Lab.g1, Lab.g1]).cache.queue = [itemB, itemC, itemA] ∧
    (run extractOk c6Start [Lab.g1, Lab.g1]).cache.page_symbols = [] ∧
    (run extractOk c6Start [Lab.g1, Lab.g1]).cache.parse_task = true ∧
    (run extractOk c6Start [Lab.g1, Lab.g1]).cache.fetchLog = [pageUrl] ∧
    c6Race.cache.fetchLog = [pageUrl, pageUrl] ∧
    c6Race.pc2 = GmPc.errored itemB := by decide

/-- C7 counterexample.  Two concurrent `get_markdown` calls for the same
location `itemA` on a still-unfetched page: both see the page in
`_page_symbols`, both fetch, both extend the queue, so the worker invokes the
extractor TWICE for `itemA` — refuting "exactly one extractor invocation". -/
theorem single_flight_double_extraction_cex :
    c7Race.cache.extractLog.count itemA = 2 ∧
    c7Race.cache.fetchLog = [pageUrl, pageUrl] := by decide

/-- C7 (amended).  Single-flight holds once the location's page is fetched:
for two concurrent callers of the same location `x` (queued once, worker
running), EVERY schedule creates at most one future for `x` and invokes the
extractor at most once on `x`; the canonical complete schedule invokes it
exactly once, creates exactly one future, and resolves both callers with the
same markdown.  (The counterexample shows the "exactly one extractor
invocation" part of the original claim fails when the two calls race the
page fetch itself.) -/
theorem single_flight_same_location :
    (∀ (x : DocItem) (f : DocItem → Option String) (sched : List Lab),
      (run f (sameLocStart x) sched).cache.extractLog.count x ≤ 1 ∧
      (run f (sameLocStart x) sched).cache.createLog.count x ≤ 1) ∧
    (c7Canonical.cache.extractLog.count itemA = 1 ∧
      c7Canonical.cache.createLog.count itemA = 1 ∧
      c7Canonical.pc1 = GmPc.done itemA "md" ∧
      c7Canonical.pc2 = GmPc.done itemA "md") := by
  constructor
  · intro x f sched
    have h := run_SameLocInv x f sched (sameLocStart x) (sameLocStart_inv x)
    obtain ⟨⟨hpg, hqonly, hcnt, hcreate, hcnone⟩, h1, h2⟩ := h
    exact ⟨by omega, hcreate⟩
  · decide

/-- C9.  Worker-handle invariant: (1) any worker step that terminates the
worker (queue drained, `InvalidStateError` escaping the loop, or delivered
cancellation) resets the `_parse_task` handle to `None` in the same atomic
step — the `finally` of `_parse_queue`; (2) the invariant "no worker alive
implies handle is `None`" is preserved by every step of the system; (3) from
any state satisfying it with no worker running, the page-fetching branch of
`get_markdown` finds `_parse_task is None` and starts exactly one worker. -/
theorem worker_handle_reset_invariant :
    (∀ (f : DocItem → Option String) (c : CacheState),
      c.workerAlive = true → (wkStep f c).workerAlive = false →
      (wkStep f c).parse_task = false) ∧
    (∀ (f : DocItem → Option String) (cfg : Config) (l : Lab),
      WkInv cfg.cache → WkInv ((step f cfg l).cache)) ∧
    (∀ (c : CacheState) (d : DocItem) (syms : List DocItem),
      WkInv c → c.workerAlive = false →
      (pageLookup c.page_symbols d.url).isSome = true →
      (gmStep c (GmPc.fetching d syms)).1.workerAlive = true ∧
      (gmStep c (GmPc.fetching d syms)).1.parse_task = true) := by
  refine ⟨?_, ?_, ?_⟩
  · intro f c halive hdead
    rcases wkStep_flags f c with ⟨h1, h2⟩ | ⟨h1, h2⟩
    · rw [h1, halive] at hdead
      cases hdead
    · exact h2
  · intro f cfg l hinv
    cases l with
    | g1 =>
      rcases gmStep_flags cfg.cache cfg.pc1 with ⟨h1, h2⟩ | ⟨h1, h2⟩ <;>
        intro hdead
      · rw [step] at hdead ⊢
        dsimp only at hdead ⊢
        rw [h1] at hdead
        rw [h2]
        exact hinv hdead
      · rw [step] at hdead
        dsimp only at hdead
        rw [h1] at hdead
        cases hdead
    | g2 =>
      rcases gmStep_flags cfg.cache cfg.pc2 with ⟨h1, h2⟩ | ⟨h1, h2⟩ <;>
        intro hdead
      · rw [step] at hdead ⊢
        dsimp only at hdead ⊢
        rw [h1] at hdead
        rw [h2]
        exact hinv hdead
      · rw [step] at hdead
        dsimp only at hdead
        rw [h1] at hdead
        cases hdead
    | wk =>
      rcases wkStep_flags f cfg.cache with ⟨h1, h2⟩ | ⟨h1, h2⟩ <;> intro hdead
      · rw [step] at hdead ⊢
        dsimp only at hdead ⊢
        rw [h1] at hdead
        rw [h2]
        exact hinv hdead
      · rw [step] at hdead ⊢
        dsimp only at hdead ⊢
        rw [h2]
    | cancel =>
      intro hdead
      rw [step] at hdead ⊢
      dsimp only at hdead ⊢
      rw [(cancelStep_flags cfg.cache).1] at hdead
      rw [(cancelStep_flags cfg.cache).2]
      exact hinv hdead
  · intro c d syms hinv halive hsome
    have hpt : c.parse_task = false := hinv halive
    rw [Option.isSome_iff_exists] at hsome
    obtain ⟨l, hl⟩ := hsome
    rw [gmStep]
    dsimp only
    rw [hl]
    dsimp only
    rw [hpt]
    simp only [Bool.false_eq_true, if_false]
    exact ⟨(gmTail_flags _ d).1, (gmTail_flags _ d).2⟩

/-- C9 witness: the three parts at concrete inputs — a worker draining an
empty queue resets the handle; a worker step from the two-caller start state
preserves the invariant; the fetch branch over a pending page with no worker
running starts one. -/
theorem worker_handle_reset_invariant_witness :
    (wkStep extractOk
      { emptyCache with workerAlive := true, parse_task := true }).parse_task = false ∧
    WkInv ((step extractOk (sameLocStart itemA) Lab.wk).cache) ∧
    ((gmStep { emptyCache with page_symbols := [(pageUrl, [itemA])] }
        (GmPc.fetching itemA [itemA])).1.workerAlive = true ∧
      (gmStep { emptyCache with page_symbols := [(pageUrl, [itemA])] }
        (GmPc.fetching itemA [itemA])).1.parse_task = true) :=
  ⟨worker_handle_reset_invariant.1 extractOk
      { emptyCache with workerAlive := true, parse_task := true } rfl rfl,
    worker_handle_reset_invariant.2.1 extractOk (sameLocStart itemA) Lab.wk
      (fun h => nomatch h),
    worker_handle_reset_invariant.2.2
      { emptyCache with page_symbols := [(pageUrl, [itemA])] } itemA [itemA]
      (fun _ => rfl) rfl rfl⟩

/-- C10.  Composite-name clobbering: Rule A stores the new entry under
`"<kind>.<rawName>"` and Rule D under `"<packageName>.<rawName>"` without
checking whether that composite name is already bound, silently overwriting
an existing mapping; only Rule B re-derives the incumbent's composite name
(prefixing the merging package) when it is a known alternate, leaving the
existing binding in place. -/
theorem composite_name_clobbering :
    (mapLookup c10AStart.doc_symbols "label.bind" = some oldLabelBind ∧
      mapLookup c10AAfter.doc_symbols "label.bind" =
        some ⟨"libA", "label", "https://liba.example/", "ref.html", "bind"⟩) ∧
    (mapLookup c10DStart.doc_symbols "libA.x" = some oldAltX ∧
      mapLookup c10DAfter.doc_symbols "libA.x" =
        some ⟨"libA", "function", "https://liba.example/", "x.html", "x"⟩) ∧
    (mapLookup c10BAfter.doc_symbols "label.y" = some otherAltY ∧
      mapLookup c10BAfter.doc_symbols "libB.label.y" = some incLabelY ∧
      "libB.label.y" ∈ c10BAfter.renamed_symbols) := by decide

end DocCogModel
